import Mathlib

/-!
Verification of the FiberTaskingLib task scheduler against its
natural-language specification.

The repository ships the scheduler's public header
(`source/fiber_tasking_lib/task_scheduler.h`) together with an example
program.  The header fixes the data model: the counter type
(`typedef std::atomic_char32_t AtomicCounter`, an unsigned 32-bit atomic),
the task-function signature, the field types of `TaskBundle` (a
`std::shared_ptr<AtomicCounter>`) and `WaitingTask` (a raw
`AtomicCounter *` plus an `int` target value), the queue kinds
(`moodycamel::ConcurrentQueue` for tasks, `moodycamel::BlockingConcurrentQueue`
for the fiber pool), and the signatures and documentation of
`AddTask` / `AddTasks` / `WaitForCounter`.  The scheduler's runtime
behaviour (worker loop, trampoline-fiber publish protocol, waiting-list
drain) is not part of the sources, so it is modelled from the
specification as a labelled transition system; every such definition is
marked `Modelled from the spec:` in its doc string.
-/

namespace FiberTaskingLib

/-! ## Counter arithmetic

`AtomicCounter` is `std::atomic_char32_t` (header line 54): an atomic over
`char32_t`, an unsigned 32-bit integer type.  Counter values are
represented as naturals below `2^32`; decrement wraps modulo `2^32`. -/

/-- `2^32`, the modulus of the unsigned 32-bit counter type `char32_t`. -/
def UINT32_MOD : Nat := 4294967296

/-- One atomic decrement of the unsigned 32-bit counter: `fetch_sub(1)`
wraps modulo `2^32`, so decrementing 0 yields `2^32 - 1`. -/
def counterDecrement (c : Nat) : Nat := (c + (UINT32_MOD - 1)) % UINT32_MOD

/-- The value produced by C++ integral conversion of a signed `int` target
to the unsigned 32-bit counter type: reduction modulo `2^32`.  The header
declares `WaitForCounter(std::shared_ptr<AtomicCounter> &counter, int value)`
and `WaitingTask::Value : int`, while the counter is `char32_t`; comparing
the two converts the `int` operand to unsigned 32-bit. -/
def intToUInt32 (t : Int) : Nat := (t % (UINT32_MOD : Int)).toNat

/-- The comparison `counter == target` as the declared C++ types perform
it: the unsigned 32-bit counter value against the `int` target converted
to unsigned 32-bit. -/
def counterEqualsTarget (c : Nat) (t : Int) : Bool := c == intToUInt32 t

/-! ## Declaration-level embedding of the header's types

These definitions transcribe type-level facts from
`source/fiber_tasking_lib/task_scheduler.h`; each doc string cites the
declaration it embeds. -/

/-- C++ types appearing in the scheduler's public declarations. -/
inductive CppType
  | intTy
  | boolTy
  | char32Ty
  | voidTy
  | sharedPtrAtomicCounter
  | rawPtrAtomicCounter
  deriving DecidableEq

/-- Header line 54: `typedef std::atomic_char32_t AtomicCounter` — the
counter's value type is `char32_t`. -/
def atomicCounterValueType : CppType := .char32Ty

/-- Header line 163: `void WaitForCounter(std::shared_ptr<AtomicCounter> &counter, int value)` —
the wait target parameter is a signed `int`. -/
def waitForCounterValueParamType : CppType := .intTy

/-- Header line 163: `WaitForCounter` returns `void`. -/
def waitForCounterReturnType : CppType := .voidTy

/-- Header line 147: `std::shared_ptr<AtomicCounter> AddTask(Task task)`. -/
def addTaskReturnType : CppType := .sharedPtrAtomicCounter

/-- Header line 155: `std::shared_ptr<AtomicCounter> AddTasks(uint numTasks, Task *tasks)`. -/
def addTasksReturnType : CppType := .sharedPtrAtomicCounter

/-- Header line 180: `bool GetNextTask(TaskBundle *nextTask)` — reports an
empty task queue by returning `false`. -/
def getNextTaskReturnType : CppType := .boolTy

/-- Header line 106: `WaitingTask::Counter` is a raw `AtomicCounter *`. -/
def waitingTaskCounterFieldType : CppType := .rawPtrAtomicCounter

/-- Header line 107: `WaitingTask::Value` is a signed `int`. -/
def waitingTaskValueFieldType : CppType := .intTy

/-- Header line 87: `TaskBundle::Counter` is a `std::shared_ptr<AtomicCounter>`. -/
def taskBundleCounterFieldType : CppType := .sharedPtrAtomicCounter

/-- Whether a type is an unsigned integer type. -/
def isUnsignedIntegerType : CppType → Bool
  | .char32Ty => true
  | _ => false

/-- Whether a type is a signed integer type. -/
def isSignedIntegerType : CppType → Bool
  | .intTy => true
  | _ => false

/-- The two queue shapes the header instantiates from moodycamel. -/
inductive QueueKind
  | lockFreeMPMC
  | blockingMPMC
  deriving DecidableEq

/-- Header line 110: `moodycamel::ConcurrentQueue<TaskBundle> m_taskQueue`. -/
def taskQueueKind : QueueKind := .lockFreeMPMC

/-- Header line 114: `moodycamel::BlockingConcurrentQueue<void *> m_fiberPool`. -/
def fiberPoolQueueKind : QueueKind := .blockingMPMC

/-- Whether popping from a queue of this kind waits when the queue is
empty (the distinguishing feature of moodycamel's blocking variant). -/
def QueueKind.popBlocksWhenEmpty : QueueKind → Bool
  | .lockFreeMPMC => false
  | .blockingMPMC => true

/-- The parameter kinds of the task entry-point signature. -/
inductive ParamKind
  | taskSchedulerPtr
  | taggedHeapPtr
  | allocatorPtr
  | argData
  deriving DecidableEq

/-- Header lines 34-37: `typedef void(*TaskFunction)(TaskScheduler *g_taskScheduler,
TaggedHeap *g_heap, TaggedHeapBackedLinearAllocator *g_allocator, void *arg)` —
every collaborator handle is an explicit parameter. -/
def taskFunctionParams : List ParamKind :=
  [.taskSchedulerPtr, .taggedHeapPtr, .allocatorPtr, .argData]

/-- Header line 70 documents: "Note: Only one instance of this class
should ever exist at a time." -/
def documentedMaxSchedulerInstances : Nat := 1

/-! ## Theorems for the declaration-level claims -/

/-- Claim C6 (code bug): the header compares an unsigned 32-bit counter
(`char32_t`) against a signed `int` wait target, both in `WaitForCounter`
and in `WaitingTask::Value`; the usual arithmetic conversions turn this
into an unsigned comparison of the converted target, so the target `-1`
"equals" the counter value `2^32 - 1` although the mathematical values
differ.  The claim's demand that no mixed signed/unsigned comparison
occurs fails on the declared types. -/
theorem mixed_sign_comparison_bug :
    isUnsignedIntegerType atomicCounterValueType = true
    ∧ isSignedIntegerType waitForCounterValueParamType = true
    ∧ isSignedIntegerType waitingTaskValueFieldType = true
    ∧ counterEqualsTarget (UINT32_MOD - 1) (-1) = true
    ∧ ((UINT32_MOD - 1 : Int) ≠ (-1 : Int)) := by
  refine ⟨rfl, rfl, rfl, ?_, by decide⟩
  rfl

/-- Claim C7 (code bug): waiting-list entries hold their counter through
the raw field `AtomicCounter *Counter` (header line 106) — not through a
shared-ownership handle as the claim requires — while `TaskBundle` does
hold a `std::shared_ptr<AtomicCounter>`. -/
theorem waiting_entry_raw_pointer_bug :
    waitingTaskCounterFieldType = CppType.rawPtrAtomicCounter
    ∧ taskBundleCounterFieldType = CppType.sharedPtrAtomicCounter
    ∧ waitingTaskCounterFieldType ≠ CppType.sharedPtrAtomicCounter := by
  exact ⟨rfl, rfl, by decide⟩

/-- Claim C8, counterexample: the fiber pool is declared as
`moodycamel::BlockingConcurrentQueue` (header line 114), whose pop waits
when the pool is empty, refuting the claim that the pool's pop is a
non-blocking operation that reports emptiness rather than waiting. -/
theorem fiberPool_pop_blocks_counterexample :
    ¬ (fiberPoolQueueKind.popBlocksWhenEmpty = false) := by
  decide

/-- Claim C8, amended: the task queue's pop is the non-blocking one
(`ConcurrentQueue`, with `GetNextTask` reporting emptiness by returning
`false`), whereas the fiber pool is a blocking queue whose pop waits for
an available fiber; and no add or wait operation returns an error code
(`AddTask`/`AddTasks` return counter handles, `WaitForCounter` returns
`void`). -/
theorem fiberPool_blocking_no_error_codes :
    taskQueueKind.popBlocksWhenEmpty = false
    ∧ getNextTaskReturnType = CppType.boolTy
    ∧ fiberPoolQueueKind.popBlocksWhenEmpty = true
    ∧ addTaskReturnType = CppType.sharedPtrAtomicCounter
    ∧ addTasksReturnType = CppType.sharedPtrAtomicCounter
    ∧ waitForCounterReturnType = CppType.voidTy := by
  exact ⟨rfl, rfl, rfl, rfl, rfl, rfl⟩

/-- Claim C9, counterexample: the header's own documentation (line 70)
states that only one `TaskScheduler` instance should ever exist at a
time, refuting the claim that multiple scheduler instances can coexist
in a single process. -/
theorem single_scheduler_instance_counterexample :
    ¬ (2 ≤ documentedMaxSchedulerInstances) := by
  decide

/-- Claim C9, amended: the scheduler, heap, and allocator handles are
passed explicitly as parameters of every task function (the `TaskFunction`
signature), not read from ambient process-wide state; the source however
documents that only one `TaskScheduler` instance should exist at a time. -/
theorem explicit_handles_single_instance :
    ParamKind.taskSchedulerPtr ∈ taskFunctionParams
    ∧ ParamKind.taggedHeapPtr ∈ taskFunctionParams
    ∧ ParamKind.allocatorPtr ∈ taskFunctionParams
    ∧ taskFunctionParams =
        [ParamKind.taskSchedulerPtr, ParamKind.taggedHeapPtr,
         ParamKind.allocatorPtr, ParamKind.argData]
    ∧ documentedMaxSchedulerInstances = 1 := by
  refine ⟨?_, ?_, ?_, rfl, rfl⟩ <;> decide

/-! ## The scheduler as a labelled transition system

The worker loop, the trampoline-fiber publish protocol and the
waiting-list drain live in the implementation file, which is not part of
the shipped sources; they are modelled here from §4.5/§4.6 of the
specification, over the data shapes the header declares.  Fibers and
counters are identified by naturals; a counter value is a natural below
`2^32`. -/

/-- A task bundle as the header declares it (`TaskBundle`, lines 85-88):
the task paired with (a handle to) its counter; the task body itself is
opaque to the scheduler, so only the counter identity matters here. -/
structure MTaskBundle where
  counter : Nat
  deriving DecidableEq

/-- A waiting-list entry as the header declares it (`WaitingTask`,
lines 93-108): the suspended fiber, its counter, and the `int` target
value. -/
structure MWaitingTask where
  fiber : Nat
  counter : Nat
  value : Int
  deriving DecidableEq

/-- Modelled from the spec: the execution phase of one worker.  A worker
is either executing the worker loop on its active fiber (`idle` phase),
or it is running one of its two dedicated trampoline fibers: the
return-to-pool trampoline (`inSwitchTrampoline stashed next`, the
scheduler's `FiberSwitchStart`) or the add-to-waiters trampoline
(`inWaitTrampoline stashed counter value next`, the scheduler's
`CounterWaitStart`).  While on a trampoline the worker's stashed fiber
and chosen next fiber live only in per-worker state. -/
inductive WorkerPhase
  | idle
  | inSwitchTrampoline (stashed next : Nat)
  | inWaitTrampoline (stashed : Nat) (counter : Nat) (value : Int) (next : Nat)
  deriving DecidableEq

/-- Modelled from the spec: one worker thread — its active-fiber slot
(`none` while it executes on a trampoline stack) and its phase. -/
structure Worker where
  active : Option Nat
  phase : WorkerPhase
  deriving DecidableEq

/-- Modelled from the spec: the scheduler state — counter values, the
next fresh counter id, the task queue, the waiting list, the fiber pool,
the workers, and a log of counter decrements (newest first) recording
each task-completion decrement. -/
structure SchedState where
  counters : Nat → Nat
  nextCounter : Nat
  taskQueue : List MTaskBundle
  waitingTasks : List MWaitingTask
  fiberPool : List Nat
  workers : List Worker
  decrLog : List Nat

/-- Pointwise update of the counter store. -/
def setCounter (f : Nat → Nat) (c v : Nat) : Nat → Nat :=
  fun i => if i = c then v else f i

/-- The `numTasks` bundles `AddTasks` enqueues, all referencing counter `c`. -/
def mkBundles (numTasks c : Nat) : List MTaskBundle :=
  List.replicate numTasks ⟨c⟩

/-- Modelled from the spec: `AddTasks(numTasks, tasks)` allocates a fresh
counter initialized to `numTasks` (stored modulo `2^32`, the counter
width), enqueues `numTasks` bundles referencing it, and returns the
counter handle. -/
def addTasksFn (s : SchedState) (numTasks : Nat) : SchedState × Nat :=
  ({ s with
      counters := setCounter s.counters s.nextCounter (numTasks % UINT32_MOD),
      nextCounter := s.nextCounter + 1,
      taskQueue := s.taskQueue ++ mkBundles numTasks s.nextCounter },
   s.nextCounter)

/-- Modelled from the spec: `AddTask(task)` is the `numTasks = 1` case of
`AddTasks`. -/
def addTaskFn (s : SchedState) : SchedState × Nat := addTasksFn s 1

/-- Labels naming the scheduler's atomic transitions. -/
inductive Label
  | addTasks (n : Nat)
  | runTask (b : MTaskBundle)
  | waitNoop (f : Nat) (c : Nat) (v : Int)
  | waitSuspend (f : Nat) (c : Nat) (v : Int) (g : Nat)
  | waitPublish (f : Nat)
  | resumeWaiter (h : Nat) (e : MWaitingTask)
  | switchPublish (f : Nat)
  deriving DecidableEq

/-- Modelled from the spec (§4.5, §4.6): the scheduler's transition
relation.

* `addTasks` — `AddTasks` enqueues a fresh counter's bundles (callable
  from the driver or from a task).
* `runTask` — a worker pops a bundle, runs its task to completion and
  decrements the bundle's counter once, at task function return.
* `waitNoop` — `WaitForCounter` on a worker whose active fiber is `f`:
  the counter already equals the target (under the declared C++
  comparison), so the call returns immediately and the state is
  unchanged.
* `waitSuspend` — the counter does not equal the target: the worker pops
  a fresh fiber `g` from the pool (a blocking pop — the rule is enabled
  only when the pool is non-empty), stashes `(f, c, v)` and `g` in
  per-worker state and switches onto its add-to-waiters trampoline,
  leaving `f`'s stack.
* `waitPublish` — the add-to-waiters trampoline, running on its own
  stack, publishes the stashed fiber to the waiting list and switches to
  the chosen next fiber `g`.
* `resumeWaiter` — the worker-loop poll: under the waiting-list lock a
  worker removes an entry whose counter equals its target, stashes its
  current fiber `h` for return-to-pool, and switches onto its
  return-to-pool trampoline to resume the waiter's fiber.
* `switchPublish` — the return-to-pool trampoline publishes the stashed
  fiber to the fiber pool and switches to the chosen next fiber. -/
inductive Step : Label → SchedState → SchedState → Prop
  | addTasks (s : SchedState) (n : Nat) :
      Step (.addTasks n) s (addTasksFn s n).1
  | runTask (s : SchedState) (q1 q2 : List MTaskBundle) (b : MTaskBundle)
      (hq : s.taskQueue = q1 ++ b :: q2) :
      Step (.runTask b) s
        { s with
            taskQueue := q1 ++ q2,
            counters := setCounter s.counters b.counter
              (counterDecrement (s.counters b.counter)),
            decrLog := b.counter :: s.decrLog }
  | waitNoop (s : SchedState) (ws1 ws2 : List Worker) (f c : Nat) (v : Int)
      (hw : s.workers = ws1 ++ ⟨some f, .idle⟩ :: ws2)
      (heq : counterEqualsTarget (s.counters c) v = true) :
      Step (.waitNoop f c v) s s
  | waitSuspend (s : SchedState) (ws1 ws2 : List Worker) (f c : Nat) (v : Int)
      (g : Nat) (pool' : List Nat)
      (hw : s.workers = ws1 ++ ⟨some f, .idle⟩ :: ws2)
      (hneq : counterEqualsTarget (s.counters c) v = false)
      (hpool : s.fiberPool = g :: pool') :
      Step (.waitSuspend f c v g) s
        { s with
            fiberPool := pool',
            workers := ws1 ++ ⟨none, .inWaitTrampoline f c v g⟩ :: ws2 }
  | waitPublish (s : SchedState) (ws1 ws2 : List Worker) (f c : Nat) (v : Int)
      (g : Nat)
      (hw : s.workers = ws1 ++ ⟨none, .inWaitTrampoline f c v g⟩ :: ws2) :
      Step (.waitPublish f) s
        { s with
            waitingTasks := ⟨f, c, v⟩ :: s.waitingTasks,
            workers := ws1 ++ ⟨some g, .idle⟩ :: ws2 }
  | resumeWaiter (s : SchedState) (ws1 ws2 : List Worker) (h : Nat)
      (wl1 wl2 : List MWaitingTask) (e : MWaitingTask)
      (hw : s.workers = ws1 ++ ⟨some h, .idle⟩ :: ws2)
      (hwl : s.waitingTasks = wl1 ++ e :: wl2)
      (heq : counterEqualsTarget (s.counters e.counter) e.value = true) :
      Step (.resumeWaiter h e) s
        { s with
            waitingTasks := wl1 ++ wl2,
            workers := ws1 ++ ⟨none, .inSwitchTrampoline h e.fiber⟩ :: ws2 }
  | switchPublish (s : SchedState) (ws1 ws2 : List Worker) (f g : Nat)
      (hw : s.workers = ws1 ++ ⟨none, .inSwitchTrampoline f g⟩ :: ws2) :
      Step (.switchPublish f) s
        { s with
            fiberPool := f :: s.fiberPool,
            workers := ws1 ++ ⟨some g, .idle⟩ :: ws2 }

/-- Finite runs of the scheduler: the reflexive-transitive closure of
`Step`. -/
inductive Steps : SchedState → SchedState → Prop
  | refl (s : SchedState) : Steps s s
  | tail {s t u : SchedState} (l : Label) : Steps s t → Step l t u → Steps s u

/-- Modelled from the spec: the state right after `Initialize` with
`numWorkers` worker threads and `poolSize` pool fibers.  Each worker's
initial fiber is drawn from the pool, so workers run fibers
`0 .. numWorkers - 1` and the pool holds the distinct fibers
`numWorkers .. numWorkers + poolSize - 1`. -/
def initState (numWorkers poolSize : Nat) : SchedState where
  counters := fun _ => 0
  nextCounter := 0
  taskQueue := []
  waitingTasks := []
  fiberPool := (List.range poolSize).map (fun i => numWorkers + i)
  workers := (List.range numWorkers).map (fun i => ⟨some i, .idle⟩)
  decrLog := []

/-! ## Fiber reference counting

For the single-location invariant we count, for each fiber handle `f`,
how many places reference it: occurrences in the pool, waiting-list
entries, workers' active slots, and per-worker trampoline state (the
stashed fiber and the chosen next fiber). -/

/-- References to fiber `f` held in a worker's trampoline state. -/
def phaseRefs (ph : WorkerPhase) (f : Nat) : Nat :=
  match ph with
  | .idle => 0
  | .inSwitchTrampoline a b =>
      (if a = f then 1 else 0) + (if b = f then 1 else 0)
  | .inWaitTrampoline a _ _ b =>
      (if a = f then 1 else 0) + (if b = f then 1 else 0)

/-- References to fiber `f` held by one worker. -/
def workerRefs (W : Worker) (f : Nat) : Nat :=
  (if W.active = some f then 1 else 0) + phaseRefs W.phase f

/-- Total number of references to fiber `f` in a scheduler state. -/
def fiberRefs (s : SchedState) (f : Nat) : Nat :=
  s.fiberPool.count f
    + s.waitingTasks.countP (fun e => e.fiber == f)
    + (s.workers.map (fun W => workerRefs W f)).sum

/-- Whether a trampoline phase stashes fiber `f` for publication. -/
def phaseStashes (ph : WorkerPhase) (f : Nat) : Prop :=
  match ph with
  | .idle => False
  | .inSwitchTrampoline a _ => a = f
  | .inWaitTrampoline a _ _ _ => a = f

/-- Every transition preserves the reference count of every fiber: steps
only move a fiber between the pool, the waiting list, workers' active
slots and per-worker trampoline state. -/
lemma fiberRefs_step {l : Label} {s t : SchedState} (h : Step l s t) (f : Nat) :
    fiberRefs t f = fiberRefs s f := by
  cases h with
  | addTasks s n =>
      simp [fiberRefs, addTasksFn]
  | runTask s q1 q2 b hq =>
      simp [fiberRefs]
  | waitNoop s ws1 ws2 f₀ c v hw heq =>
      rfl
  | waitSuspend s ws1 ws2 f₀ c v g pool' hw hneq hpool =>
      simp only [fiberRefs, hw, hpool, List.map_append, List.sum_append,
        List.map_cons, List.sum_cons, List.count_cons, workerRefs, phaseRefs,
        Option.some.injEq, beq_iff_eq]
      simp only [reduceCtorEq, if_false]
      split_ifs <;> omega
  | waitPublish s ws1 ws2 f₀ c v g hw =>
      simp only [fiberRefs, hw, List.map_append, List.sum_append,
        List.map_cons, List.sum_cons, List.countP_cons, workerRefs, phaseRefs,
        Option.some.injEq, beq_iff_eq]
      simp only [reduceCtorEq, if_false]
      split_ifs <;> omega
  | resumeWaiter s ws1 ws2 h₀ wl1 wl2 e hw hwl heq =>
      simp only [fiberRefs, hw, hwl, List.map_append, List.sum_append,
        List.map_cons, List.sum_cons, List.countP_append, List.countP_cons,
        workerRefs, phaseRefs, Option.some.injEq, beq_iff_eq]
      simp only [reduceCtorEq, if_false]
      split_ifs <;> omega
  | switchPublish s ws1 ws2 f₀ g hw =>
      simp only [fiberRefs, hw, List.map_append, List.sum_append,
        List.map_cons, List.sum_cons, List.count_cons, workerRefs, phaseRefs,
        Option.some.injEq, beq_iff_eq]
      simp only [reduceCtorEq, if_false]
      split_ifs <;> omega

/-- Reference counts are constant along every run. -/
lemma fiberRefs_steps {s u : SchedState} (h : Steps s u) (f : Nat) :
    fiberRefs u f = fiberRefs s f := by
  induction h with
  | refl => rfl
  | tail l hst hstep ih => rw [fiberRefs_step hstep f, ih]

/-- Sum of an equality indicator over `List.range`. -/
lemma sum_ite_range (P f : Nat) :
    (((List.range P).map (fun i => if i = f then (1 : Nat) else 0)).sum)
      = if f < P then 1 else 0 := by
  induction P with
  | zero => simp
  | succ P ih =>
      rw [List.range_succ]
      simp only [List.map_append, List.sum_append, List.map_cons,
        List.sum_cons, List.map_nil, List.sum_nil, ih]
      split_ifs <;> omega

/-- Occurrence count of a fiber in the initial pool. -/
lemma count_initState_pool (P N f : Nat) :
    (((List.range N).map (fun i => P + i)).count f)
      = if P ≤ f ∧ f < P + N then 1 else 0 := by
  induction N with
  | zero =>
      rw [if_neg (by omega)]
      simp
  | succ N ih =>
      rw [List.range_succ]
      simp only [List.map_append, List.map_cons, List.map_nil,
        List.count_append, ih]
      simp only [List.count_cons, List.count_nil, beq_iff_eq]
      split_ifs <;> omega

/-- In the initial state every fiber handle is referenced at most once:
worker `i < P` runs fiber `i` and the pool holds the distinct fibers
`P .. P + N - 1`. -/
lemma fiberRefs_initState (P N f : Nat) : fiberRefs (initState P N) f ≤ 1 := by
  simp only [fiberRefs, initState, List.countP_nil, List.map_map]
  have hcomp :
      ((fun W => workerRefs W f) ∘ fun i => Worker.mk (some i) .idle)
        = fun i => if i = f then (1 : Nat) else 0 := by
    funext i
    simp [workerRefs, phaseRefs, Option.some.injEq]
  rw [hcomp, sum_ite_range, count_initState_pool]
  split_ifs <;> omega

/-- A worker's active-slot indicator is bounded by its reference count. -/
lemma countP_active_le_sum (ws : List Worker) (f : Nat) :
    ws.countP (fun W => W.active == some f)
      ≤ (ws.map (fun W => workerRefs W f)).sum := by
  induction ws with
  | nil => simp
  | cons W ws ih =>
      simp only [List.countP_cons, List.map_cons, List.sum_cons]
      have hW : (if (W.active == some f) = true then (1 : Nat) else 0)
          ≤ workerRefs W f := by
        simp only [workerRefs, beq_iff_eq]
        split_ifs <;> omega
      omega

/-- Along any run, every fiber handle is referenced at most once in
total. -/
lemma fiberRefs_reachable_le_one (P N : Nat) {s : SchedState}
    (hs : Steps (initState P N) s) (f : Nat) : fiberRefs s f ≤ 1 := by
  rw [fiberRefs_steps hs f]
  exact fiberRefs_initState P N f

/-- Claim C4: in every state of every run from initialization, each
fiber handle is referenced by at most one of the fiber pool, the waiting
list, and the active-fiber slots of the workers; in particular no fiber
handle is simultaneously in the pool and on the waiting list. -/
theorem fiber_in_at_most_one_place (P N : Nat) (s : SchedState)
    (hs : Steps (initState P N) s) (f : Nat) :
    s.fiberPool.count f + s.waitingTasks.countP (fun e => e.fiber == f)
        + s.workers.countP (fun W => W.active == some f) ≤ 1
    ∧ ¬ (f ∈ s.fiberPool ∧ ∃ e ∈ s.waitingTasks, e.fiber = f) := by
  have href : fiberRefs s f ≤ 1 := fiberRefs_reachable_le_one P N hs f
  have hws := countP_active_le_sum s.workers f
  rw [fiberRefs] at href
  refine ⟨by omega, ?_⟩
  rintro ⟨hp, e, he, hef⟩
  have hc1 : 0 < s.fiberPool.count f := List.count_pos_iff.mpr hp
  have hc2 : 0 < s.waitingTasks.countP (fun e => e.fiber == f) := by
    rw [List.countP_pos_iff]
    exact ⟨e, he, by simp [hef]⟩
  omega

/-- Witness for claim C4 at the concrete initial state with one worker
and two pool fibers, checking fiber handle 0. -/
theorem fiber_in_at_most_one_place_witness :
    (initState 1 2).fiberPool.count 0
        + (initState 1 2).waitingTasks.countP (fun e => e.fiber == 0)
        + (initState 1 2).workers.countP (fun W => W.active == some 0) ≤ 1
    ∧ ¬ (0 ∈ (initState 1 2).fiberPool
          ∧ ∃ e ∈ (initState 1 2).waitingTasks, e.fiber = 0) :=
  fiber_in_at_most_one_place 1 2 (initState 1 2) (Steps.refl _) 0

/-- A worker whose active slot holds `f` contributes at least one
reference. -/
lemma workerRefs_ge_one_of_active {W : Worker} {f : Nat}
    (h : W.active = some f) : 1 ≤ workerRefs W f := by
  simp [workerRefs, h]

/-- Each member's reference count is bounded by the workers' total. -/
lemma workerRefs_le_sum {ws : List Worker} {W : Worker} (h : W ∈ ws)
    (f : Nat) : workerRefs W f ≤ (ws.map (fun W => workerRefs W f)).sum :=
  List.single_le_sum (fun x _ => Nat.zero_le x) _ (List.mem_map_of_mem _ h)

/-- If one worker's trampoline state references fiber `f` and the total
reference count of `f` is at most one, then no worker's active slot holds
`f`. -/
lemma no_active_of_stashed {s : SchedState} {ws1 ws2 : List Worker}
    {W₀ : Worker} {f : Nat} (hw : s.workers = ws1 ++ W₀ :: ws2)
    (hstash : 1 ≤ phaseRefs W₀.phase f) (href : fiberRefs s f ≤ 1) :
    ∀ W ∈ s.workers, W.active ≠ some f := by
  intro W hW hact
  rw [fiberRefs, hw] at href
  simp only [List.map_append, List.sum_append, List.map_cons,
    List.sum_cons] at href
  have h0 : 1 ≤ workerRefs W₀ f := by rw [workerRefs]; omega
  rw [hw] at hW
  rcases List.mem_append.mp hW with h1 | h1
  · have h2 := workerRefs_le_sum h1 f
    have h3 := workerRefs_ge_one_of_active hact
    omega
  · rcases List.mem_cons.mp h1 with rfl | h1
    · have h2 : 1 + phaseRefs W.phase f ≤ workerRefs W f := by
        rw [workerRefs, hact]
        simp
      omega
    · have h2 := workerRefs_le_sum h1 f
      have h3 := workerRefs_ge_one_of_active hact
      omega

/-- Claim C2: whenever a step of a run publishes a fiber `f` — adds an
occurrence of `f` to the fiber pool or to the waiting list — the
publishing worker is executing its dedicated trampoline (its active slot
is empty and its trampoline state stashes `f`, so the publish runs on the
trampoline's stack, distinct from `f`'s), and at that instant no worker
is executing on `f`'s stack: no worker's active slot holds `f`. -/
theorem publish_only_from_trampoline (P N : Nat) {s t : SchedState}
    (l : Label) (hreach : Steps (initState P N) s) (hstep : Step l s t)
    (f : Nat)
    (hpub : s.fiberPool.count f < t.fiberPool.count f
      ∨ s.waitingTasks.countP (fun e => e.fiber == f)
          < t.waitingTasks.countP (fun e => e.fiber == f)) :
    (∃ W ∈ s.workers, W.active = none ∧ phaseStashes W.phase f)
    ∧ (∀ W ∈ s.workers, W.active ≠ some f) := by
  have href : fiberRefs s f ≤ 1 := fiberRefs_reachable_le_one P N hreach f
  cases hstep with
  | addTasks s n =>
      exfalso
      rcases hpub with h | h <;> simp [addTasksFn] at h
  | runTask s q1 q2 b hq =>
      exfalso
      rcases hpub with h | h <;> simp at h
  | waitNoop s ws1 ws2 f₀ c v hw heq =>
      exfalso
      rcases hpub with h | h <;> simp at h
  | waitSuspend s ws1 ws2 f₀ c v g pool' hw hneq hpool =>
      exfalso
      rcases hpub with h | h
      · rw [hpool] at h
        simp only [List.count_cons] at h
        omega
      · simp at h
  | waitPublish s ws1 ws2 f₀ c v g hw =>
      rcases hpub with h | h
      · exfalso; simp at h
      · simp only [List.countP_cons] at h
        have hf : f₀ = f := by
          by_contra hne
          have hfib : ((⟨f₀, c, v⟩ : MWaitingTask).fiber == f) = false := by
            simp [hne]
          simp [hfib] at h
        constructor
        · refine ⟨⟨none, .inWaitTrampoline f₀ c v g⟩, ?_, rfl, hf⟩
          rw [hw]
          exact List.mem_append.mpr (Or.inr (List.mem_cons_self _ _))
        · exact no_active_of_stashed hw (by simp [phaseRefs, hf]) href
  | resumeWaiter s ws1 ws2 h₀ wl1 wl2 e hw hwl heq =>
      exfalso
      rcases hpub with h | h
      · simp at h
      · rw [hwl] at h
        simp only [List.countP_append, List.countP_cons] at h
        omega
  | switchPublish s ws1 ws2 f₀ g hw =>
      rcases hpub with h | h
      · simp only [List.count_cons] at h
        have hf : f₀ = f := by
          by_contra hne
          have hfib : (f₀ == f) = false := by simp [hne]
          simp [hfib] at h
        constructor
        · refine ⟨⟨none, .inSwitchTrampoline f₀ g⟩, ?_, rfl, hf⟩
          rw [hw]
          exact List.mem_append.mpr (Or.inr (List.mem_cons_self _ _))
        · exact no_active_of_stashed hw (by simp [phaseRefs, hf]) href
      · exfalso; simp at h

/-- The state after the worker of `initState 1 2` suspends its fiber 0 on
counter 0 with target 5, popping fresh fiber 1 from the pool. -/
def suspendedState : SchedState :=
  { initState 1 2 with
      fiberPool := [2],
      workers := [⟨none, .inWaitTrampoline 0 0 5 1⟩] }

/-- The state after the add-to-waiters trampoline publishes fiber 0 to
the waiting list and switches to fiber 1. -/
def publishedState : SchedState :=
  { initState 1 2 with
      fiberPool := [2],
      waitingTasks := [⟨0, 0, 5⟩],
      workers := [⟨some 1, .idle⟩] }

/-- Witness for claim C2: a concrete two-step run from `initState 1 2` in
which the trampoline publishes fiber 0 to the waiting list. -/
theorem publish_only_from_trampoline_witness :
    (∃ W ∈ suspendedState.workers, W.active = none ∧ phaseStashes W.phase 0)
    ∧ (∀ W ∈ suspendedState.workers, W.active ≠ some 0) := by
  have step1 : Step (.waitSuspend 0 0 5 1) (initState 1 2) suspendedState :=
    Step.waitSuspend (initState 1 2) [] [] 0 0 5 1 [2] (by decide) (by decide)
      (by decide)
  have step2 : Step (.waitPublish 0) suspendedState publishedState :=
    Step.waitPublish suspendedState [] [] 0 0 5 1 (by decide)
  exact publish_only_from_trampoline 1 2 (.waitPublish 0)
    (Steps.tail _ (Steps.refl _) step1) step2 0 (Or.inr (by decide))

/-- The immediate-return branch of `WaitForCounter` fires only when the
counter is observed equal to the target under the declared comparison. -/
lemma waitNoop_requires_eq {s t : SchedState} {f c : Nat} {v : Int}
    (hstep : Step (.waitNoop f c v) s t) :
    counterEqualsTarget (s.counters c) v = true := by
  cases hstep
  assumption

/-- A step removes a waiting-list entry only when the entry's counter is
observed equal to its target under the declared comparison. -/
lemma removal_requires_eq {l : Label} {s t : SchedState}
    (hstep : Step l s t) (e : MWaitingTask)
    (hdec : t.waitingTasks.count e < s.waitingTasks.count e) :
    counterEqualsTarget (s.counters e.counter) e.value = true := by
  cases hstep with
  | addTasks s n => simp [addTasksFn] at hdec
  | runTask s q1 q2 b hq => simp at hdec
  | waitNoop s ws1 ws2 f₀ c v hw heq => simp at hdec
  | waitSuspend s ws1 ws2 f₀ c v g pool' hw hneq hpool => simp at hdec
  | waitPublish s ws1 ws2 f₀ c v g hw =>
      exfalso
      simp only [List.count_cons] at hdec
      omega
  | resumeWaiter s ws1 ws2 h₀ wl1 wl2 e' hw hwl heq =>
      rw [hwl] at hdec
      simp only [List.count_append, List.count_cons] at hdec
      have he : e = e' := by
        by_contra hne
        rw [if_neg (by simpa using Ne.symm hne)] at hdec
        omega
      rw [he]
      exact heq
  | switchPublish s ws1 ws2 f₀ g hw => simp at hdec

/-- Claim C3: a `WaitForCounter` call never gets past its wait before the
counter has been observed equal to the target: the immediate-return
branch requires the counter to equal the target at the call, and a
suspended waiter's entry leaves the waiting list (the first move of its
resumption) only at a step whose pre-state observes the counter equal to
the entry's target — the observation happens-before the waiter runs
again. -/
theorem wait_returns_only_after_observed_equal (l : Label)
    (s t : SchedState) (hstep : Step l s t) :
    (∀ f c v, l = Label.waitNoop f c v →
        counterEqualsTarget (s.counters c) v = true)
    ∧ (∀ e : MWaitingTask,
        t.waitingTasks.count e < s.waitingTasks.count e →
        counterEqualsTarget (s.counters e.counter) e.value = true) := by
  constructor
  · intro f c v hl
    subst hl
    exact waitNoop_requires_eq hstep
  · intro e hdec
    exact removal_requires_eq hstep e hdec

/-- A one-worker state with fiber 1 waiting on counter 0 for target 0,
which the counter (value 0) already meets. -/
def resumeDemoState : SchedState where
  counters := fun _ => 0
  nextCounter := 1
  taskQueue := []
  waitingTasks := [⟨1, 0, 0⟩]
  fiberPool := []
  workers := [⟨some 0, .idle⟩]
  decrLog := []

/-- `resumeDemoState` after the worker removes the ready entry and moves
onto its return-to-pool trampoline. -/
def resumeDemoNext : SchedState where
  counters := fun _ => 0
  nextCounter := 1
  taskQueue := []
  waitingTasks := []
  fiberPool := []
  workers := [⟨none, .inSwitchTrampoline 0 1⟩]
  decrLog := []

/-- Witness for claim C3: in the concrete resumption step from
`resumeDemoState`, the removed waiter's counter is observed equal to its
target. -/
theorem wait_returns_only_after_observed_equal_witness :
    counterEqualsTarget (resumeDemoState.counters 0) 0 = true := by
  have hstep : Step (.resumeWaiter 0 ⟨1, 0, 0⟩) resumeDemoState resumeDemoNext :=
    Step.resumeWaiter resumeDemoState [] [] 0 [] [] ⟨1, 0, 0⟩ rfl rfl (by decide)
  exact (wait_returns_only_after_observed_equal _ _ _ hstep).2 ⟨1, 0, 0⟩
    (by decide)

/-- Claim C5: calling `WaitForCounter` on a counter that already equals
the target (under the declared comparison) returns immediately without
suspending: the no-op transition is enabled and leaves the state — in
particular the calling worker's active fiber — unchanged, and no
suspending transition for this call is possible, so no fiber switch
occurs. -/
theorem wait_equal_is_noop (s : SchedState) (ws1 ws2 : List Worker)
    (f c : Nat) (v : Int)
    (hw : s.workers = ws1 ++ ⟨some f, .idle⟩ :: ws2)
    (heq : counterEqualsTarget (s.counters c) v = true) :
    Step (.waitNoop f c v) s s
    ∧ (∀ t, Step (.waitNoop f c v) s t → t = s)
    ∧ (∀ g t, ¬ Step (.waitSuspend f c v g) s t) := by
  refine ⟨Step.waitNoop s ws1 ws2 f c v hw heq, ?_, ?_⟩
  · intro t ht
    cases ht
    rfl
  · intro g t ht
    cases ht with
    | waitSuspend _ ws1' ws2' _ _ _ _ pool' hw' hneq hpool =>
        rw [heq] at hneq
        cases hneq

/-- A minimal one-worker state whose counter 0 is 0. -/
def oneWorkerState : SchedState where
  counters := fun _ => 0
  nextCounter := 0
  taskQueue := []
  waitingTasks := []
  fiberPool := []
  workers := [⟨some 0, .idle⟩]
  decrLog := []

/-- Witness for claim C5 at `oneWorkerState` with counter 0 already at
its target 0. -/
theorem wait_equal_is_noop_witness :
    Step (.waitNoop 0 0 (0 : Int)) oneWorkerState oneWorkerState
    ∧ (∀ t, Step (.waitNoop 0 0 (0 : Int)) oneWorkerState t →
        t = oneWorkerState)
    ∧ (∀ g t, ¬ Step (.waitSuspend 0 0 (0 : Int) g) oneWorkerState t) :=
  wait_equal_is_noop oneWorkerState [] [] 0 0 0 rfl (by decide)

/-! ## Counter lifecycle (claim C1) -/

/-- Number of not-yet-executed bundles referencing counter `c`. -/
def pendingFor (c : Nat) (s : SchedState) : Nat :=
  s.taskQueue.countP (fun b => b.counter == c)

/-- Below the counter width, decrement is ordinary predecessor. -/
lemma counterDecrement_succ (k : Nat) (h : k + 1 < UINT32_MOD) :
    counterDecrement (k + 1) = k := by
  have hM : UINT32_MOD = 4294967296 := rfl
  rw [hM] at h
  rw [counterDecrement, hM]
  omega

/-- Counting the bundles `AddTasks` creates. -/
lemma countP_mkBundles (n k c : Nat) :
    (mkBundles n k).countP (fun b => b.counter == c)
      = if k = c then n else 0 := by
  induction n with
  | zero => simp [mkBundles]
  | succ n ih =>
      rw [mkBundles, List.replicate_succ]
      rw [List.countP_cons]
      rw [mkBundles] at ih
      rw [ih]
      by_cases hk : k = c <;> simp [hk]

/-- One step preserves the conservation invariant of a live counter `c`
that started at `n`: the counter's id stays below the fresh-id bound, its
value equals the number of still-pending bundles, and pending bundles
plus performed decrements total `n`. -/
lemma drain_step {c n : Nat} (hn : n < UINT32_MOD) {l : Label}
    {t u : SchedState} (hstep : Step l t u)
    (h1 : c < t.nextCounter)
    (h2 : t.counters c = pendingFor c t)
    (h3 : pendingFor c t + t.decrLog.count c = n) :
    c < u.nextCounter ∧ u.counters c = pendingFor c u
      ∧ pendingFor c u + u.decrLog.count c = n := by
  cases hstep with
  | addTasks _ m =>
      have hne : ¬ (c = t.nextCounter) := by omega
      have hne' : ¬ (t.nextCounter = c) := by omega
      refine ⟨?_, ?_, ?_⟩
      · show c < t.nextCounter + 1
        omega
      · show setCounter t.counters t.nextCounter (m % UINT32_MOD) c
            = pendingFor c (addTasksFn t m).1
        rw [setCounter, if_neg hne]
        show t.counters c
            = (t.taskQueue ++ mkBundles m t.nextCounter).countP
                (fun b => b.counter == c)
        rw [List.countP_append, countP_mkBundles, if_neg hne']
        rw [pendingFor] at h2
        omega
      · show pendingFor c (addTasksFn t m).1 + t.decrLog.count c = n
        show (t.taskQueue ++ mkBundles m t.nextCounter).countP
              (fun b => b.counter == c) + t.decrLog.count c = n
        rw [List.countP_append, countP_mkBundles, if_neg hne']
        rw [pendingFor] at h3
        omega
  | runTask _ q1 q2 b hq =>
      have hpend : pendingFor c t
          = q1.countP (fun x => x.counter == c)
            + (q2.countP (fun x => x.counter == c)
              + if (b.counter == c) then 1 else 0) := by
        rw [pendingFor, hq, List.countP_append, List.countP_cons]
      by_cases hbc : b.counter = c
      · have hite : (b.counter == c) = true := by simp [hbc]
        have hval : t.counters c
            = q1.countP (fun x => x.counter == c)
              + q2.countP (fun x => x.counter == c) + 1 := by
          rw [h2, hpend, hite]
          rw [show (if (true = true) then (1 : Nat) else 0) = 1 from rfl]
          omega
        have hlt : t.counters c < UINT32_MOD := by
          rw [h2]
          omega
        refine ⟨h1, ?_, ?_⟩
        · show setCounter t.counters b.counter
              (counterDecrement (t.counters b.counter)) c
            = (q1 ++ q2).countP (fun b => b.counter == c)
          rw [setCounter, if_pos hbc.symm, hbc]
          rw [hval, counterDecrement_succ _ (by rw [← hval]; exact hlt)]
          rw [List.countP_append]
        · show (q1 ++ q2).countP (fun b => b.counter == c)
              + (b.counter :: t.decrLog).count c = n
          rw [List.countP_append, List.count_cons]
          rw [hpend, hite] at h3
          rw [show (if (true = true) then (1 : Nat) else 0) = 1 from rfl] at h3
          rw [hite]
          rw [show (if (true = true) then (1 : Nat) else 0) = 1 from rfl]
          omega
      · have hite : (b.counter == c) = false := by simp [hbc]
        have hnec : ¬ (c = b.counter) := fun h => hbc h.symm
        refine ⟨h1, ?_, ?_⟩
        · show setCounter t.counters b.counter
              (counterDecrement (t.counters b.counter)) c
            = (q1 ++ q2).countP (fun b => b.counter == c)
          rw [setCounter, if_neg hnec]
          rw [h2, hpend, hite]
          rw [show (if (false = true) then (1 : Nat) else 0) = 0 from rfl]
          rw [List.countP_append]
          omega
        · show (q1 ++ q2).countP (fun b => b.counter == c)
              + (b.counter :: t.decrLog).count c = n
          rw [List.countP_append, List.count_cons]
          rw [hpend, hite] at h3
          rw [show (if (false = true) then (1 : Nat) else 0) = 0 from rfl] at h3
          rw [hite]
          rw [show (if (false = true) then (1 : Nat) else 0) = 0 from rfl]
          omega
  | waitNoop _ ws1 ws2 f c' v hw heq => exact ⟨h1, h2, h3⟩
  | waitSuspend _ ws1 ws2 f c' v g pool' hw hneq hpool => exact ⟨h1, h2, h3⟩
  | waitPublish _ ws1 ws2 f c' v g hw => exact ⟨h1, h2, h3⟩
  | resumeWaiter _ ws1 ws2 h₀ wl1 wl2 e hw hwl heq => exact ⟨h1, h2, h3⟩
  | switchPublish _ ws1 ws2 f g hw => exact ⟨h1, h2, h3⟩

/-- The conservation invariant holds along every run. -/
lemma drain_steps {c n : Nat} (hn : n < UINT32_MOD) {s u : SchedState}
    (h : Steps s u)
    (h1 : c < s.nextCounter)
    (h2 : s.counters c = pendingFor c s)
    (h3 : pendingFor c s + s.decrLog.count c = n) :
    c < u.nextCounter ∧ u.counters c = pendingFor c u
      ∧ pendingFor c u + u.decrLog.count c = n := by
  induction h with
  | refl => exact ⟨h1, h2, h3⟩
  | tail l hst hstep ih =>
      obtain ⟨i1, i2, i3⟩ := ih
      exact drain_step hn hstep i1 i2 i3

/-- Claim C1: `AddTasks(n, tasks)` returns a counter initialized to `n`;
along any subsequent run at most `n` decrements of that counter are
logged, and in any run that has consumed all `n` of its bundles (each
task performing its one completion decrement) exactly `n` decrements of
the counter occurred and its value is 0; and `AddTask` is the `n = 1`
case of `AddTasks`. -/
theorem addTasks_counter_lifecycle (s : SchedState) (n : Nat)
    (hn : n < UINT32_MOD)
    (hq : ∀ b ∈ s.taskQueue, b.counter ≠ s.nextCounter)
    (hd : s.decrLog.count s.nextCounter = 0) :
    ((addTasksFn s n).1).counters ((addTasksFn s n).2) = n
    ∧ (∀ u, Steps (addTasksFn s n).1 u →
        u.decrLog.count ((addTasksFn s n).2) ≤ n)
    ∧ (∀ u, Steps (addTasksFn s n).1 u →
        pendingFor ((addTasksFn s n).2) u = 0 →
        u.counters ((addTasksFn s n).2) = 0
          ∧ u.decrLog.count ((addTasksFn s n).2) = n)
    ∧ addTaskFn s = addTasksFn s 1 := by
  have hq0 : s.taskQueue.countP (fun b => b.counter == s.nextCounter) = 0 := by
    rw [List.countP_eq_zero]
    intro b hb
    simpa using hq b hb
  have base1 : ((addTasksFn s n).1).counters s.nextCounter = n := by
    show setCounter s.counters s.nextCounter (n % UINT32_MOD) s.nextCounter = n
    rw [setCounter, if_pos rfl]
    exact Nat.mod_eq_of_lt hn
  have basePend : pendingFor s.nextCounter (addTasksFn s n).1 = n := by
    show (s.taskQueue ++ mkBundles n s.nextCounter).countP
        (fun b => b.counter == s.nextCounter) = n
    rw [List.countP_append, hq0, countP_mkBundles, if_pos rfl]
    omega
  have base2 : ((addTasksFn s n).1).counters s.nextCounter
      = pendingFor s.nextCounter (addTasksFn s n).1 := by
    rw [base1, basePend]
  have base3 : pendingFor s.nextCounter (addTasksFn s n).1
      + ((addTasksFn s n).1).decrLog.count s.nextCounter = n := by
    rw [basePend]
    have : ((addTasksFn s n).1).decrLog = s.decrLog := rfl
    rw [this, hd]
    omega
  have base0 : s.nextCounter < ((addTasksFn s n).1).nextCounter := by
    show s.nextCounter < s.nextCounter + 1
    omega
  have h2c : (addTasksFn s n).2 = s.nextCounter := rfl
  refine ⟨base1, ?_, ?_, rfl⟩
  · intro u hu
    obtain ⟨i1, i2, i3⟩ := drain_steps hn hu base0 base2 base3
    rw [h2c]
    omega
  · intro u hu hpend
    rw [h2c] at hpend ⊢
    obtain ⟨i1, i2, i3⟩ := drain_steps hn hu base0 base2 base3
    constructor
    · rw [i2, hpend]
    · omega

/-- Witness for claim C1: adding two tasks to the fresh `initState 1 2`
yields a counter initialized to 2, and `AddTask` coincides with
`AddTasks` at one task. -/
theorem addTasks_counter_lifecycle_witness :
    ((addTasksFn (initState 1 2) 2).1).counters
        ((addTasksFn (initState 1 2) 2).2) = 2
    ∧ addTaskFn (initState 1 2) = addTasksFn (initState 1 2) 1 := by
  have h := addTasks_counter_lifecycle (initState 1 2) 2 (by decide)
    (by decide) (by decide)
  exact ⟨h.1, h.2.2.2⟩

/-! ## Wraparound and unattained targets (claim C10) -/

/-- A step whose pre-state does not observe the entry's counter equal to
its target keeps the entry on the waiting list. -/
lemma waiting_mem_step {l : Label} {t u : SchedState} (hstep : Step l t u)
    (e : MWaitingTask)
    (hne : counterEqualsTarget (t.counters e.counter) e.value = false)
    (hmem : e ∈ t.waitingTasks) : e ∈ u.waitingTasks := by
  cases hstep with
  | addTasks _ m => exact hmem
  | runTask _ q1 q2 b hq => exact hmem
  | waitNoop _ ws1 ws2 f c v hw heq => exact hmem
  | waitSuspend _ ws1 ws2 f c v g pool' hw hneq hpool => exact hmem
  | waitPublish _ ws1 ws2 f c v g hw =>
      exact List.mem_cons_of_mem _ hmem
  | resumeWaiter _ ws1 ws2 h₀ wl1 wl2 e' hw hwl heq =>
      by_cases hee : e = e'
      · exfalso
        rw [← hee] at heq
        rw [hne] at heq
        cases heq
      · rw [hwl] at hmem
        show e ∈ wl1 ++ wl2
        rcases List.mem_append.mp hmem with h | h
        · exact List.mem_append.mpr (Or.inl h)
        · rcases List.mem_cons.mp h with h | h
          · exact absurd h hee
          · exact List.mem_append.mpr (Or.inr h)
  | switchPublish _ ws1 ws2 f g hw => exact hmem

/-- Claim C10: the counter is an unsigned 32-bit atomic, so decrementing
value 0 wraps to `2^32 - 1` with no underflow error; and since a waiting
fiber is removed from the waiting list only at a state whose counter
exactly equals its stored target, a waiter whose target is never
attained at any reachable state is never resumed: its entry stays on the
waiting list through every run. -/
theorem counter_wrap_and_unattained_never_resumed :
    counterDecrement 0 = UINT32_MOD - 1
    ∧ (∀ s u : SchedState, ∀ e : MWaitingTask, Steps s u →
        (∀ w, Steps s w →
          counterEqualsTarget (w.counters e.counter) e.value = false) →
        e ∈ s.waitingTasks → e ∈ u.waitingTasks) := by
  constructor
  · decide
  · intro s u e hsu hnever hmem
    induction hsu with
    | refl => exact hmem
    | tail l hst hstep ih =>
        exact waiting_mem_step hstep e (hnever _ hst) ih

/-- A state whose counter 0 is frozen at 5 while fiber 1 waits for
target 3: no bundle references counter 0 and every future counter id is
at least 1, so counter 0 never changes. -/
def frozenState : SchedState where
  counters := fun i => if i = 0 then 5 else 0
  nextCounter := 1
  taskQueue := []
  waitingTasks := [⟨1, 0, 3⟩]
  fiberPool := []
  workers := [⟨some 0, .idle⟩]
  decrLog := []

/-- One step keeps counter 0 frozen at 5 when every queued bundle and
every future counter id is at least 1. -/
lemma frozen_step {l : Label} {t u : SchedState} (hstep : Step l t u)
    (i1 : t.counters 0 = 5) (i2 : 1 ≤ t.nextCounter)
    (i3 : ∀ b ∈ t.taskQueue, 1 ≤ b.counter) :
    u.counters 0 = 5 ∧ 1 ≤ u.nextCounter
      ∧ ∀ b ∈ u.taskQueue, 1 ≤ b.counter := by
  cases hstep with
  | addTasks _ m =>
      refine ⟨?_, ?_, ?_⟩
      · show setCounter t.counters t.nextCounter (m % UINT32_MOD) 0 = 5
        rw [setCounter, if_neg (by omega)]
        exact i1
      · show 1 ≤ t.nextCounter + 1
        omega
      · show ∀ b ∈ t.taskQueue ++ mkBundles m t.nextCounter, 1 ≤ b.counter
        intro b hb
        rcases List.mem_append.mp hb with h | h
        · exact i3 b h
        · rw [mkBundles] at h
          rw [List.eq_of_mem_replicate h]
          exact i2
  | runTask _ q1 q2 b hq =>
      have hb1 : 1 ≤ b.counter := by
        refine i3 b ?_
        rw [hq]
        exact List.mem_append.mpr (Or.inr (List.mem_cons_self _ _))
      refine ⟨?_, i2, ?_⟩
      · show setCounter t.counters b.counter
            (counterDecrement (t.counters b.counter)) 0 = 5
        rw [setCounter, if_neg (by omega)]
        exact i1
      · intro x hx
        refine i3 x ?_
        rw [hq]
        rcases List.mem_append.mp hx with h | h
        · exact List.mem_append.mpr (Or.inl h)
        · exact List.mem_append.mpr (Or.inr (List.mem_cons_of_mem _ h))
  | waitNoop _ ws1 ws2 f c v hw heq => exact ⟨i1, i2, i3⟩
  | waitSuspend _ ws1 ws2 f c v g pool' hw hneq hpool => exact ⟨i1, i2, i3⟩
  | waitPublish _ ws1 ws2 f c v g hw => exact ⟨i1, i2, i3⟩
  | resumeWaiter _ ws1 ws2 h₀ wl1 wl2 e hw hwl heq => exact ⟨i1, i2, i3⟩
  | switchPublish _ ws1 ws2 f g hw => exact ⟨i1, i2, i3⟩

/-- From `frozenState`, counter 0 keeps the value 5 forever: fresh
counters get ids of at least 1, and every queued bundle references such
an id, so no step ever touches counter 0. -/
lemma frozenState_counter_constant :
    ∀ w, Steps frozenState w →
      w.counters 0 = 5 ∧ 1 ≤ w.nextCounter
        ∧ ∀ b ∈ w.taskQueue, 1 ≤ b.counter := by
  intro w h
  induction h with
  | refl =>
      refine ⟨rfl, le_refl 1, ?_⟩
      intro b hb
      simp [frozenState] at hb
  | tail l hst hstep ih =>
      obtain ⟨i1, i2, i3⟩ := ih
      exact frozen_step hstep i1 i2 i3

/-- Witness for claim C10: decrementing 0 wraps to `2^32 - 1`, and the
waiter of `frozenState` — whose target 3 is never attained because its
counter is frozen at 5 — is still on the waiting list (here: after the
empty run). -/
theorem counter_wrap_and_unattained_never_resumed_witness :
    counterDecrement 0 = UINT32_MOD - 1
    ∧ (⟨1, 0, 3⟩ : MWaitingTask) ∈ frozenState.waitingTasks := by
  refine ⟨counter_wrap_and_unattained_never_resumed.1, ?_⟩
  refine counter_wrap_and_unattained_never_resumed.2 frozenState frozenState
    ⟨1, 0, 3⟩ (Steps.refl _) ?_ (by decide)
  intro w hw
  rw [counterEqualsTarget, (frozenState_counter_constant w hw).1]
  decide

end FiberTaskingLib
